import Mathlib

/-!
Verification of the Bulk-Watermark frontend orchestration layer.

The definitions below are a shallow embedding of:
- src/src/types/watermark.ts (data model)
- src/src/hooks/useFileSelection.ts (file classifier: getExtension, toFileItem)
- src/src/hooks/useWatermarkProcessor.ts (processing controller: validateInputs,
  processBatch, cancelProcessing, event listeners, progressArray, cleanup)
- src/src/hooks/useWatermarkStore.ts (updateConfig with customPosition clamping)

JS numbers holding normalized coordinates are modelled as rationals, JS `Map`
as an insertion-ordered association list, and the React state owned by the
hook as an explicit record threaded through pure transition functions.
-/

namespace BulkWatermark

/-! ## Data model (src/src/types/watermark.ts) -/

inductive WatermarkType
  | text
  | image
deriving DecidableEq, Repr

inductive WatermarkPosition
  | topLeft | topCenter | topRight
  | centerLeft | center | centerRight
  | bottomLeft | bottomCenter | bottomRight
deriving DecidableEq, Repr

inductive PositionMode
  | preset
  | custom
deriving DecidableEq, Repr

/-- Normalized custom position; JS floating point coordinates are modelled
as rationals (the code only compares, clamps and rescales them). -/
structure CustomPosition where
  x : ℚ
  y : ℚ
deriving DecidableEq, Repr

structure WatermarkConfig where
  watermarkType : WatermarkType
  text : String
  imagePath : Option String
  position : WatermarkPosition
  opacity : ℤ
  textColor : String
  fontSize : ℤ
  fontFamily : String
  imageScale : Option ℤ := none
  positionMode : Option PositionMode := none
  customPosition : Option CustomPosition := none
deriving DecidableEq, Repr

inductive MediaKind
  | image
  | video
deriving DecidableEq, Repr

structure FileItem where
  path : String
  name : String
  type : MediaKind
  size : Option ℕ := none
deriving DecidableEq, Repr

inductive ProcessingStatus
  | success
  | failed
  | skipped
deriving DecidableEq, Repr

structure FileResult where
  inputPath : String
  outputPath : Option String
  status : ProcessingStatus
  error : Option String
deriving DecidableEq, Repr

structure BatchResult where
  files : List FileResult
  total : ℕ
  successful : ℕ
  failed : ℕ
deriving DecidableEq, Repr

inductive ProgressStatus
  | processing
  | complete
  | error
deriving DecidableEq, Repr

structure ProgressPayload where
  filePath : String
  fileIndex : ℕ
  totalFiles : ℕ
  status : ProgressStatus
deriving DecidableEq, Repr

inductive ProcessingState
  | idle
  | processing
  | complete
  | error
  | cancelled
deriving DecidableEq, Repr

/-! ## File classifier (src/src/hooks/useFileSelection.ts) -/

def IMAGE_EXTENSIONS : List String := ["png", "jpg", "jpeg", "gif", "bmp", "webp"]

def VIDEO_EXTENSIONS : List String := ["mp4", "avi", "mov", "mkv", "webm", "flv"]

/-- JS `String.prototype.split` on a character predicate: always returns at
least one (possibly empty) segment, separators delimit segments. -/
def splitChars (sep : Char → Bool) : List Char → List (List Char)
  | [] => [[]]
  | c :: rest =>
    match splitChars sep rest with
    | [] => [[c]]
    | s :: ss => if sep c then [] :: s :: ss else (c :: s) :: ss

/-- The regex `\.([^.]+)$` of getExtension: the (nonempty, dot-free) run of
characters after the last dot, lowercased; empty string when there is no
match. Splitting on dots yields that run as the last segment exactly when
the name contains a dot and the last segment is the captured group (empty
last segment = regex mismatch = empty extension). -/
def getExtension (path : String) : String :=
  let parts := splitChars (fun c => c == '.') path.toList
  if parts.length ≥ 2 then String.mk ((parts.getLastD []).map Char.toLower) else ""

/-- toFileItem from useFileSelection.ts: basename after the last slash or
backslash, extension from the basename, kind image exactly for the image
extensions and video otherwise. -/
def toFileItem (path : String) : FileItem :=
  let segments := splitChars (fun c => c == '/' || c == '\\') path.toList
  let name := String.mk (segments.getLastD [])
  let extension := getExtension name
  let kind := if IMAGE_EXTENSIONS.contains extension then MediaKind.image else MediaKind.video
  { path := path, name := name, type := kind, size := none }

/-- The extension the classifier derives for a path: extension of the
basename, lowercased. -/
def classifierExtension (path : String) : String :=
  getExtension (String.mk ((splitChars (fun c => c == '/' || c == '\\') path.toList).getLastD []))

example : getExtension "a.jpg" = "jpg" := by decide
example : getExtension "photo.PNG" = "png" := by decide
example : getExtension "archive.tar.gz" = "gz" := by decide
example : getExtension "noext" = "" := by decide
example : getExtension "dot.at.end." = "" := by decide
example : (toFileItem "/media/photo.PNG").type = MediaKind.image := by decide
example : (toFileItem "C:\\videos\\clip.mp4").type = MediaKind.video := by decide
example : (toFileItem "document.txt").type = MediaKind.video := by decide
example : (toFileItem "/a/b/c.jpg").name = "c.jpg" := by decide

/-! ## Processing controller (src/src/hooks/useWatermarkProcessor.ts)

The hook state `processingState`, `progress`, `result`, `error` plus the
mutable ref `isCancelledRef` are modelled as one record. The JS `Map` in
`progress` is an insertion-ordered association list: `mapSet` overwrites an
existing key in place and otherwise appends, `mapGet` looks the key up. -/

/-- Insertion-ordered association list update, the semantics of
`Map.prototype.set`. -/
def mapSet (m : List (String × ProgressPayload)) (k : String) (v : ProgressPayload) :
    List (String × ProgressPayload) :=
  match m with
  | [] => [(k, v)]
  | (k₁, v₁) :: rest => if k₁ = k then (k, v) :: rest else (k₁, v₁) :: mapSet rest k v

/-- `Map.prototype.get`. -/
def mapGet (m : List (String × ProgressPayload)) (k : String) : Option ProgressPayload :=
  match m with
  | [] => none
  | (k₁, v₁) :: rest => if k₁ = k then some v₁ else mapGet rest k

structure ProcessorState where
  processingState : ProcessingState
  progress : List (String × ProgressPayload)
  result : Option BatchResult
  error : Option String
  isCancelled : Bool
deriving DecidableEq, Repr

/-- Initial hook state: idle, empty progress map, no result, no error,
cancellation flag unset. -/
def initialState : ProcessorState :=
  { processingState := ProcessingState.idle
    progress := []
    result := none
    error := none
    isCancelled := false }

/-- Validation messages of the controller (VALIDATION_MESSAGES). -/
def msgNoFiles : String := "Add files before processing."

def msgNoOutput : String := "Please select an output directory."

def msgEmptyText : String := "Watermark text cannot be empty."

def msgMissingImage : String := "Select a watermark image before processing."

/-- JS `String.prototype.trim`: drop whitespace from both ends. Modelled
over the character list so that the kernel can evaluate it. -/
def jsTrim (s : String) : String :=
  String.mk (((s.toList.dropWhile Char.isWhitespace).reverse.dropWhile Char.isWhitespace).reverse)

/-- JS falsiness of the nullable `config.imagePath` string: null or empty. -/
def imagePathUnset (config : WatermarkConfig) : Prop :=
  config.imagePath = none ∨ config.imagePath = some ""

instance (config : WatermarkConfig) : Decidable (imagePathUnset config) := by
  unfold imagePathUnset; infer_instance

/-- validateInputs: the four checks in source order, first failure wins.
`!files.length` is emptiness of the list, `!outputDir` emptiness of the
string, `!config.text.trim()` emptiness after trimming, `!config.imagePath`
JS falsiness of the nullable string. -/
def validateInputs (files : List FileItem) (config : WatermarkConfig) (outputDir : String) :
    Option String :=
  if files = [] then some msgNoFiles
  else if outputDir = "" then some msgNoOutput
  else if config.watermarkType = WatermarkType.text ∧ jsTrim config.text = "" then
    some msgEmptyText
  else if config.watermarkType = WatermarkType.image ∧ imagePathUnset config then
    some msgMissingImage
  else none

/-- Outcome of the `invoke('process_batch', …)` call: the promise either
resolves (with the batch result, which the controller ignores — the real
result arrives over the event channel) or rejects with an error message. -/
inductive InvokeOutcome
  | resolves (r : BatchResult)
  | rejects (msg : String)
deriving DecidableEq, Repr

/-- The state written by processBatch after validation succeeds, before the
orchestrator invocation: processing, cleared error/result/progress,
cancellation flag reset. -/
def startRun (s : ProcessorState) : ProcessorState :=
  { s with
    processingState := ProcessingState.processing
    error := none
    result := none
    progress := []
    isCancelled := false }

/-- processBatch: validate; on failure store the message and enter the error
state without invoking; on success reset the run state and invoke, entering
the error state again if the invocation rejects. The boolean records whether
`invoke` was called. -/
def processBatch (s : ProcessorState) (files : List FileItem) (config : WatermarkConfig)
    (outputDir : String) (outcome : InvokeOutcome) : ProcessorState × Bool :=
  match validateInputs files config outputDir with
  | some msg =>
    ({ s with error := some msg, processingState := ProcessingState.error }, false)
  | none =>
    let s₁ := startRun s
    match outcome with
    | InvokeOutcome.resolves _ => (s₁, true)
    | InvokeOutcome.rejects msg =>
      ({ s₁ with error := some msg, processingState := ProcessingState.error }, true)

/-- The `watermark-progress` listener: discarded when unmounted or after
cancellation, otherwise the payload replaces the entry for its file path. -/
def handleProgress (isMounted : Bool) (s : ProcessorState) (payload : ProgressPayload) :
    ProcessorState :=
  if !isMounted || s.isCancelled then s
  else { s with progress := mapSet s.progress payload.filePath payload }

/-- The `watermark-complete` listener: ignored when unmounted; stores the
result, resolving to cancelled when the cancellation flag is set and to
complete otherwise. -/
def handleComplete (isMounted : Bool) (s : ProcessorState) (payload : BatchResult) :
    ProcessorState :=
  if !isMounted then s
  else if s.isCancelled then
    { s with result := some payload, processingState := ProcessingState.cancelled }
  else
    { s with result := some payload, processingState := ProcessingState.complete }

/-- An event delivered on the channel to the controller listeners. -/
inductive ControllerEvent
  | progress (p : ProgressPayload)
  | complete (r : BatchResult)
deriving DecidableEq, Repr

def handleEvent (isMounted : Bool) (s : ProcessorState) : ControllerEvent → ProcessorState
  | ControllerEvent.progress p => handleProgress isMounted s p
  | ControllerEvent.complete r => handleComplete isMounted s r

/-- cancelProcessing: no-op outside the processing state; otherwise set the
cancellation flag and move to cancelled immediately. -/
def cancelProcessing (s : ProcessorState) : ProcessorState :=
  if s.processingState ≠ ProcessingState.processing then s
  else { s with isCancelled := true, processingState := ProcessingState.cancelled }

/-- progressArray: the map values sorted by fileIndex, as
`Array.from(progress.values()).sort((a, b) => a.fileIndex - b.fileIndex)`. -/
def progressArray (s : ProcessorState) : List ProgressPayload :=
  (s.progress.map Prod.snd).mergeSort (fun a b => a.fileIndex ≤ b.fileIndex)

/-- A sequence of progress events delivered to the mounted listener. -/
def applyProgressEvents (s : ProcessorState) (ps : List ProgressPayload) : ProcessorState :=
  ps.foldl (handleProgress true) s

/-- The last payload observed for a given file path in a delivery sequence. -/
def lastPayloadFor (ps : List ProgressPayload) (k : String) : Option ProgressPayload :=
  (ps.filter (fun p => p.filePath == k)).getLast?

/-! ## Configuration store (src/src/hooks/useWatermarkStore.ts) -/

/-- Default configuration from src/src/types/watermark.ts. -/
def DEFAULT_WATERMARK_CONFIG : WatermarkConfig :=
  { watermarkType := WatermarkType.text
    text := "Watermark"
    imagePath := none
    position := WatermarkPosition.bottomRight
    opacity := 80
    textColor := "#ffffff"
    fontSize := 48
    fontFamily := "Arial"
    imageScale := some 20
    positionMode := some PositionMode.preset
    customPosition := none }

/-- A TS `Partial<WatermarkConfig>`: each field is present or absent.
For the fields that are themselves nullable or optional in the full config,
a present value carries the inner option. -/
structure ConfigPatch where
  watermarkType : Option WatermarkType := none
  text : Option String := none
  imagePath : Option (Option String) := none
  position : Option WatermarkPosition := none
  opacity : Option ℤ := none
  textColor : Option String := none
  fontSize : Option ℤ := none
  fontFamily : Option String := none
  imageScale : Option (Option ℤ) := none
  positionMode : Option (Option PositionMode) := none
  customPosition : Option CustomPosition := none
deriving DecidableEq, Repr

/-- The object spread `{ ...previous, ...partial }`: fields present in the
patch overwrite the previous value. -/
def applyPatch (c : WatermarkConfig) (p : ConfigPatch) : WatermarkConfig :=
  { watermarkType := p.watermarkType.getD c.watermarkType
    text := p.text.getD c.text
    imagePath := p.imagePath.getD c.imagePath
    position := p.position.getD c.position
    opacity := p.opacity.getD c.opacity
    textColor := p.textColor.getD c.textColor
    fontSize := p.fontSize.getD c.fontSize
    fontFamily := p.fontFamily.getD c.fontFamily
    imageScale := p.imageScale.getD c.imageScale
    positionMode := p.positionMode.getD c.positionMode
    customPosition := (p.customPosition.map some).getD c.customPosition }

/-- Math.max(0, Math.min(1, q)). -/
def clamp01 (q : ℚ) : ℚ := max 0 (min 1 q)

def clampPosition (cp : CustomPosition) : CustomPosition :=
  { x := clamp01 cp.x, y := clamp01 cp.y }

/-- updateConfig of useWatermarkStore.ts, restricted to the configuration
value it stores: spread the patch over the previous config, then clamp the
supplied customPosition componentwise — but only when the patch supplies a
customPosition, the resulting positionMode is custom, and some component is
out of range. The update always stores a configuration; it never rejects. -/
def updateConfig (c : WatermarkConfig) (p : ConfigPatch) : WatermarkConfig :=
  let updated := applyPatch c p
  match p.customPosition with
  | none => updated
  | some cp =>
    if updated.positionMode = some PositionMode.custom then
      if cp.x < 0 ∨ cp.x > 1 ∨ cp.y < 0 ∨ cp.y > 1 then
        { updated with customPosition := some (clampPosition cp) }
      else updated
    else updated

/-! ## Listener registration lifecycle (useEffect in useWatermarkProcessor.ts)

The effect body starts an async registration: `await listen('watermark-progress')`
resolves and its unlisten handle is stored in a ref, then
`await listen('watermark-complete')` resolves and its handle is stored.
The synchronous cleanup function flips `isMounted`, calls each handle that is
currently stored and nulls the ref. The async function is not cancelled by
cleanup, so the resolution steps still run afterwards. A run of the hook
lifetime is an interleaving of the two resolution steps (in order) with the
single cleanup step. -/

structure ListenerLifecycle where
  isMounted : Bool
  progressLive : Bool
  completeLive : Bool
  progressRef : Bool
  completeRef : Bool
  progressUnlistenCalls : ℕ
  completeUnlistenCalls : ℕ
deriving DecidableEq, Repr

def initialLifecycle : ListenerLifecycle :=
  { isMounted := true
    progressLive := false
    completeLive := false
    progressRef := false
    completeRef := false
    progressUnlistenCalls := 0
    completeUnlistenCalls := 0 }

inductive LifecycleStep
  | resolveProgressListen
  | resolveCompleteListen
  | cleanup
deriving DecidableEq, Repr

def lifecycleStep (s : ListenerLifecycle) : LifecycleStep → ListenerLifecycle
  | LifecycleStep.resolveProgressListen =>
    { s with progressLive := true, progressRef := true }
  | LifecycleStep.resolveCompleteListen =>
    { s with completeLive := true, completeRef := true }
  | LifecycleStep.cleanup =>
    let s₁ := { s with isMounted := false }
    let s₂ :=
      if s₁.progressRef then
        { s₁ with
          progressLive := false
          progressRef := false
          progressUnlistenCalls := s₁.progressUnlistenCalls + 1 }
      else s₁
    if s₂.completeRef then
      { s₂ with
        completeLive := false
        completeRef := false
        completeUnlistenCalls := s₂.completeUnlistenCalls + 1 }
    else s₂

def runLifecycle (steps : List LifecycleStep) : ListenerLifecycle :=
  steps.foldl lifecycleStep initialLifecycle

/-! ## Sample data used by witnesses (mirrors the test fixtures) -/

def sampleFile : FileItem :=
  { path := "/input/a.jpg", name := "a.jpg", type := MediaKind.image, size := none }

def sampleConfig : WatermarkConfig :=
  { watermarkType := WatermarkType.text
    text := "Demo"
    imagePath := none
    position := WatermarkPosition.bottomRight
    opacity := 80
    textColor := "#ffffff"
    fontSize := 32
    fontFamily := "Arial"
    imageScale := none
    positionMode := none
    customPosition := none }

def sampleBatchResult : BatchResult :=
  { files :=
      [{ inputPath := "/input/a.jpg"
         outputPath := some "/output/a.jpg"
         status := ProcessingStatus.success
         error := none }]
    total := 1
    successful := 1
    failed := 0 }

def sampleProgress : ProgressPayload :=
  { filePath := "/input/a.jpg"
    fileIndex := 0
    totalFiles := 1
    status := ProgressStatus.processing }

example : validateInputs [sampleFile] sampleConfig "/output" = none := by decide
example : validateInputs [] sampleConfig "/output" = some msgNoFiles := by decide
example :
    validateInputs [sampleFile] { sampleConfig with text := "   " } "/output"
      = some msgEmptyText := by
  decide

example :
    (updateConfig { DEFAULT_WATERMARK_CONFIG with positionMode := some PositionMode.custom }
        { customPosition := some { x := mkRat 3 2, y := mkRat (-1) 5 } }).customPosition
      = some { x := 1, y := 0 } := by
  decide

example :
    (updateConfig DEFAULT_WATERMARK_CONFIG
        { customPosition := some { x := mkRat 3 2, y := mkRat (-1) 5 } }).customPosition
      = some { x := mkRat 3 2, y := mkRat (-1) 5 } := by
  decide

/-! ## Theorems -/

/-- C1: processBatch validates files, outputDir, text and imagePath in this
fixed order, returns only the first failing check message, and on any
validation failure stores the message, enters the error state and never
invokes the orchestrator. -/
theorem processBatch_validation_order (s : ProcessorState) (files : List FileItem)
    (config : WatermarkConfig) (outputDir : String) (outcome : InvokeOutcome) :
    (files = [] → validateInputs files config outputDir = some msgNoFiles)
    ∧ (files ≠ [] → outputDir = "" → validateInputs files config outputDir = some msgNoOutput)
    ∧ (files ≠ [] → outputDir ≠ "" → config.watermarkType = WatermarkType.text →
        jsTrim config.text = "" → validateInputs files config outputDir = some msgEmptyText)
    ∧ (files ≠ [] → outputDir ≠ "" → config.watermarkType = WatermarkType.image →
        config.imagePath = none → validateInputs files config outputDir = some msgMissingImage)
    ∧ (∀ msg, validateInputs files config outputDir = some msg →
        (processBatch s files config outputDir outcome).1.processingState = ProcessingState.error
        ∧ (processBatch s files config outputDir outcome).1.error = some msg
        ∧ (processBatch s files config outputDir outcome).2 = false) := by
  refine ⟨?_, ?_, ?_, ?_, ?_⟩
  · intro h
    simp [validateInputs, h]
  · intro h₁ h₂
    simp [validateInputs, h₁, h₂]
  · intro h₁ h₂ h₃ h₄
    have hne : ¬(config.watermarkType = WatermarkType.image ∧ imagePathUnset config) := by
      rintro ⟨hc, -⟩
      rw [h₃] at hc
      exact WatermarkType.noConfusion hc
    simp [validateInputs, h₁, h₂, h₃, h₄, hne]
  · intro h₁ h₂ h₃ h₄
    have hne : ¬(config.watermarkType = WatermarkType.text ∧ jsTrim config.text = "") := by
      rintro ⟨hc, -⟩
      rw [h₃] at hc
      exact WatermarkType.noConfusion hc
    simp [validateInputs, h₁, h₂, h₃, hne, imagePathUnset, h₄]
  · intro msg h
    simp [processBatch, h]

/-- C1 witness: the four messages at concrete inputs, and the error state on
the empty file list. -/
theorem processBatch_validation_order_witness :
    validateInputs [] sampleConfig "/output" = some msgNoFiles
    ∧ validateInputs [sampleFile] sampleConfig "" = some msgNoOutput
    ∧ validateInputs [sampleFile] { sampleConfig with text := "   " } "/output" = some msgEmptyText
    ∧ validateInputs [sampleFile] { sampleConfig with watermarkType := WatermarkType.image }
        "/output" = some msgMissingImage
    ∧ (processBatch initialState [] sampleConfig "/output"
        (InvokeOutcome.resolves sampleBatchResult)).1.processingState = ProcessingState.error := by
  refine ⟨?_, ?_, ?_, ?_, ?_⟩
  · exact (processBatch_validation_order initialState [] sampleConfig "/output"
      (InvokeOutcome.resolves sampleBatchResult)).1 rfl
  · exact (processBatch_validation_order initialState [sampleFile] sampleConfig ""
      (InvokeOutcome.resolves sampleBatchResult)).2.1 (by decide) rfl
  · exact (processBatch_validation_order initialState [sampleFile]
      { sampleConfig with text := "   " } "/output"
      (InvokeOutcome.resolves sampleBatchResult)).2.2.1 (by decide) (by decide) rfl (by decide)
  · exact (processBatch_validation_order initialState [sampleFile]
      { sampleConfig with watermarkType := WatermarkType.image } "/output"
      (InvokeOutcome.resolves sampleBatchResult)).2.2.2.1 (by decide) (by decide) rfl rfl
  · exact ((processBatch_validation_order initialState [] sampleConfig "/output"
      (InvokeOutcome.resolves sampleBatchResult)).2.2.2.2 msgNoFiles (by decide)).1

/-- C3: when validation passes and the orchestrator invocation rejects, the
controller enters the error state with the rejection message stored, and no
batch result is recorded for the run. -/
theorem processBatch_rejection_sets_error (s : ProcessorState) (files : List FileItem)
    (config : WatermarkConfig) (outputDir : String) (msg : String)
    (h : validateInputs files config outputDir = none) :
    (processBatch s files config outputDir (InvokeOutcome.rejects msg)).1.processingState
      = ProcessingState.error
    ∧ (processBatch s files config outputDir (InvokeOutcome.rejects msg)).1.error = some msg
    ∧ (processBatch s files config outputDir (InvokeOutcome.rejects msg)).1.result = none
    ∧ (processBatch s files config outputDir (InvokeOutcome.rejects msg)).2 = true := by
  simp [processBatch, h, startRun]

/-- C3 witness at the fixture inputs with the rejection of the missing
external binary. -/
theorem processBatch_rejection_sets_error_witness :
    (processBatch initialState [sampleFile] sampleConfig "/output"
      (InvokeOutcome.rejects "FFmpeg binary not found")).1.error
      = some "FFmpeg binary not found" :=
  (processBatch_rejection_sets_error initialState [sampleFile] sampleConfig "/output"
    "FFmpeg binary not found" (by decide)).2.1

/-- C5: when validation passes, the state handed to the orchestrator
invocation is the processing state with progress, result, error and the
cancellation flag all cleared, whatever stale values the previous run left
behind. -/
theorem processBatch_success_resets_run (s : ProcessorState) (files : List FileItem)
    (config : WatermarkConfig) (outputDir : String) (r : BatchResult)
    (h : validateInputs files config outputDir = none) :
    processBatch s files config outputDir (InvokeOutcome.resolves r) = (startRun s, true)
    ∧ (startRun s).processingState = ProcessingState.processing
    ∧ (startRun s).progress = []
    ∧ (startRun s).result = none
    ∧ (startRun s).error = none
    ∧ (startRun s).isCancelled = false := by
  simp [processBatch, h, startRun]

/-- C5 witness: a stale terminal state with leftover progress, result, error
and a set cancellation flag is fully reset. -/
theorem processBatch_success_resets_run_witness :
    processBatch
      { processingState := ProcessingState.cancelled
        progress := [(sampleProgress.filePath, sampleProgress)]
        result := some sampleBatchResult
        error := some "stale"
        isCancelled := true }
      [sampleFile] sampleConfig "/output" (InvokeOutcome.resolves sampleBatchResult)
      = (startRun
          { processingState := ProcessingState.cancelled
            progress := [(sampleProgress.filePath, sampleProgress)]
            result := some sampleBatchResult
            error := some "stale"
            isCancelled := true }, true) :=
  (processBatch_success_resets_run
    { processingState := ProcessingState.cancelled
      progress := [(sampleProgress.filePath, sampleProgress)]
      result := some sampleBatchResult
      error := some "stale"
      isCancelled := true }
    [sampleFile] sampleConfig "/output" sampleBatchResult (by decide)).1

/-- C8: validation is deterministic and idempotent: two successive
processBatch calls on the same invalid inputs store the same message, enter
the error state both times, and never invoke the orchestrator. -/
theorem processBatch_validation_idempotent (s : ProcessorState) (files : List FileItem)
    (config : WatermarkConfig) (outputDir : String) (outcome₁ outcome₂ : InvokeOutcome)
    (msg : String) (h : validateInputs files config outputDir = some msg) :
    (processBatch s files config outputDir outcome₁).1.error = some msg
    ∧ (processBatch s files config outputDir outcome₁).1.processingState = ProcessingState.error
    ∧ (processBatch s files config outputDir outcome₁).2 = false
    ∧ (processBatch (processBatch s files config outputDir outcome₁).1 files config outputDir
        outcome₂).1.error = some msg
    ∧ (processBatch (processBatch s files config outputDir outcome₁).1 files config outputDir
        outcome₂).1.processingState = ProcessingState.error
    ∧ (processBatch (processBatch s files config outputDir outcome₁).1 files config outputDir
        outcome₂).2 = false := by
  simp [processBatch, h]

/-- C8 witness: two calls with an empty file list. -/
theorem processBatch_validation_idempotent_witness :
    (processBatch (processBatch initialState [] sampleConfig "/output"
        (InvokeOutcome.resolves sampleBatchResult)).1 [] sampleConfig "/output"
        (InvokeOutcome.resolves sampleBatchResult)).1.error = some msgNoFiles :=
  (processBatch_validation_idempotent initialState [] sampleConfig "/output"
    (InvokeOutcome.resolves sampleBatchResult) (InvokeOutcome.resolves sampleBatchResult)
    msgNoFiles (by decide)).2.2.2.1

/-- C10: a terminal complete event received while mounted with the
cancellation flag unset stores the payload as the result and moves to the
complete state, whatever state the controller was in. -/
theorem handleComplete_stores_result (s : ProcessorState) (r : BatchResult)
    (h : s.isCancelled = false) :
    handleComplete true s r
      = { s with result := some r, processingState := ProcessingState.complete } := by
  simp [handleComplete, h]

/-- C10 witness: a complete event arriving in the error state still resolves
to complete. -/
theorem handleComplete_stores_result_witness :
    handleComplete true
      { processingState := ProcessingState.error
        progress := []
        result := none
        error := some "previous failure"
        isCancelled := false } sampleBatchResult
      = { processingState := ProcessingState.complete
          progress := []
          result := some sampleBatchResult
          error := some "previous failure"
          isCancelled := false } :=
  handleComplete_stores_result
    { processingState := ProcessingState.error
      progress := []
      result := none
      error := some "previous failure"
      isCancelled := false } sampleBatchResult rfl

/-- C9: the effect cleanup de-registers exactly once in the ordinary
schedule, but when disposal runs before the asynchronous listen calls
resolve, both registrations stay live after disposal with their unlisten
handles never invoked. -/
theorem lifecycle_cleanup_race_leaks :
    ((runLifecycle [LifecycleStep.cleanup, LifecycleStep.resolveProgressListen,
        LifecycleStep.resolveCompleteListen]).isMounted = false
      ∧ (runLifecycle [LifecycleStep.cleanup, LifecycleStep.resolveProgressListen,
          LifecycleStep.resolveCompleteListen]).progressLive = true
      ∧ (runLifecycle [LifecycleStep.cleanup, LifecycleStep.resolveProgressListen,
          LifecycleStep.resolveCompleteListen]).completeLive = true
      ∧ (runLifecycle [LifecycleStep.cleanup, LifecycleStep.resolveProgressListen,
          LifecycleStep.resolveCompleteListen]).progressUnlistenCalls = 0
      ∧ (runLifecycle [LifecycleStep.cleanup, LifecycleStep.resolveProgressListen,
          LifecycleStep.resolveCompleteListen]).completeUnlistenCalls = 0)
    ∧ ((runLifecycle [LifecycleStep.resolveProgressListen, LifecycleStep.resolveCompleteListen,
          LifecycleStep.cleanup]).progressLive = false
      ∧ (runLifecycle [LifecycleStep.resolveProgressListen, LifecycleStep.resolveCompleteListen,
          LifecycleStep.cleanup]).completeLive = false
      ∧ (runLifecycle [LifecycleStep.resolveProgressListen, LifecycleStep.resolveCompleteListen,
          LifecycleStep.cleanup]).progressUnlistenCalls = 1
      ∧ (runLifecycle [LifecycleStep.resolveProgressListen, LifecycleStep.resolveCompleteListen,
          LifecycleStep.cleanup]).completeUnlistenCalls = 1) := by
  decide

/-- C4 counterexample: a path with the unsupported extension txt is still
assigned the media kind video by the classifier, instead of failing
classification. -/
theorem toFileItem_txt_counterexample :
    (toFileItem "document.txt").type = MediaKind.video
    ∧ classifierExtension "document.txt" = "txt"
    ∧ IMAGE_EXTENSIONS.contains "txt" = false
    ∧ VIDEO_EXTENSIONS.contains "txt" = false := by
  decide

/-- C4 amended: the classifier maps a path to image exactly when the
lowercased extension is among the image extensions, and to video in every
other case — including the supported video extensions, but also every
unsupported extension, which is never treated as a classification failure
by the classifier itself. -/
theorem toFileItem_kind_characterization (path : String) :
    ((toFileItem path).type = MediaKind.image
      ↔ IMAGE_EXTENSIONS.contains (classifierExtension path) = true)
    ∧ ((toFileItem path).type = MediaKind.video
      ↔ IMAGE_EXTENSIONS.contains (classifierExtension path) = false)
    ∧ (VIDEO_EXTENSIONS.contains (classifierExtension path) = true →
      (toFileItem path).type = MediaKind.video) := by
  have hty : (toFileItem path).type
      = if IMAGE_EXTENSIONS.contains (classifierExtension path) then MediaKind.image
        else MediaKind.video := rfl
  refine ⟨?_, ?_, ?_⟩
  · rw [hty]
    by_cases hc : IMAGE_EXTENSIONS.contains (classifierExtension path) = true <;> simp [hc]
  · rw [hty]
    by_cases hc : IMAGE_EXTENSIONS.contains (classifierExtension path) = true <;> simp [hc]
  · intro hv
    have hmem : classifierExtension path ∈ VIDEO_EXTENSIONS := by
      simpa using hv
    have hdisj : ∀ e ∈ VIDEO_EXTENSIONS, IMAGE_EXTENSIONS.contains e = false := by decide
    have himg : IMAGE_EXTENSIONS.contains (classifierExtension path) = false :=
      hdisj _ hmem
    rw [hty, himg]
    simp

/-- C4 witness: a lowercased image extension is classified as image, a video
extension as video. -/
theorem toFileItem_kind_characterization_witness :
    (toFileItem "C:\\pics\\photo.PNG").type = MediaKind.image
    ∧ (toFileItem "/media/clip.mp4").type = MediaKind.video :=
  ⟨(toFileItem_kind_characterization "C:\\pics\\photo.PNG").1.mpr (by decide),
    (toFileItem_kind_characterization "/media/clip.mp4").2.2 (by decide)⟩

/-- C7 counterexample: an update supplying an out-of-range customPosition
while the configuration stays in preset mode stores the coordinates
unclamped, refuting componentwise clamping for every update. -/
theorem updateConfig_preset_counterexample :
    (updateConfig DEFAULT_WATERMARK_CONFIG
        { customPosition := some { x := mkRat 3 2, y := mkRat (-1) 5 } }).customPosition
      = some { x := mkRat 3 2, y := mkRat (-1) 5 }
    ∧ (updateConfig DEFAULT_WATERMARK_CONFIG
        { customPosition := some { x := mkRat 3 2, y := mkRat (-1) 5 } }).customPosition
      ≠ some { x := 1, y := 0 }
    ∧ DEFAULT_WATERMARK_CONFIG.positionMode = some PositionMode.preset
    ∧ (mkRat 3 2 > 1 ∧ mkRat (-1) 5 < 0) := by
  decide

/-- C7 amended: when the patch supplies a customPosition and the resulting
positionMode is custom, the stored customPosition is the componentwise clamp
to the unit square and the update is accepted; when the resulting mode is
not custom the supplied value is stored unchanged (still never rejected). -/
theorem updateConfig_clamps_custom_mode (c : WatermarkConfig) (p : ConfigPatch)
    (cp : CustomPosition) (h : p.customPosition = some cp) :
    ((applyPatch c p).positionMode = some PositionMode.custom →
      (updateConfig c p).customPosition = some (clampPosition cp)
      ∧ 0 ≤ (clampPosition cp).x ∧ (clampPosition cp).x ≤ 1
      ∧ 0 ≤ (clampPosition cp).y ∧ (clampPosition cp).y ≤ 1)
    ∧ ((applyPatch c p).positionMode ≠ some PositionMode.custom →
      (updateConfig c p).customPosition = some cp) := by
  have hupd : (applyPatch c p).customPosition = some cp := by
    simp [applyPatch, h]
  constructor
  · intro hm
    refine ⟨?_, le_max_left 0 _, max_le (by norm_num) (min_le_left _ _),
      le_max_left 0 _, max_le (by norm_num) (min_le_left _ _)⟩
    unfold updateConfig
    rw [h]
    simp only [hm, if_true, if_pos rfl]
    by_cases hr : cp.x < 0 ∨ cp.x > 1 ∨ cp.y < 0 ∨ cp.y > 1
    · rw [if_pos hr]
    · rw [if_neg hr, hupd]
      push_neg at hr
      obtain ⟨hx0, hx1, hy0, hy1⟩ := hr
      have hx : clamp01 cp.x = cp.x := by
        unfold clamp01
        rw [min_eq_right hx1, max_eq_right hx0]
      have hy : clamp01 cp.y = cp.y := by
        unfold clamp01
        rw [min_eq_right hy1, max_eq_right hy0]
      unfold clampPosition
      rw [hx, hy]
  · intro hm
    unfold updateConfig
    rw [h]
    simp only [if_neg hm]
    exact hupd

/-- C7 witness: the Scenario F coordinates supplied while in custom mode are
clamped to the corner of the unit square. -/
theorem updateConfig_clamps_custom_mode_witness :
    (updateConfig { DEFAULT_WATERMARK_CONFIG with positionMode := some PositionMode.custom }
        { customPosition := some { x := mkRat 3 2, y := mkRat (-1) 5 } }).customPosition
      = some { x := 1, y := 0 } := by
  have h := ((updateConfig_clamps_custom_mode
      { DEFAULT_WATERMARK_CONFIG with positionMode := some PositionMode.custom }
      { customPosition := some { x := mkRat 3 2, y := mkRat (-1) 5 } }
      { x := mkRat 3 2, y := mkRat (-1) 5 } rfl).1 (by decide)).1
  rw [h]
  decide

/-- C2 helper: once the cancellation flag is set and the state is cancelled,
every event leaves the flag and the state that way and never touches the
progress map. -/
theorem handleEvent_cancelled_invariant (s : ProcessorState) (hc : s.isCancelled = true)
    (hs : s.processingState = ProcessingState.cancelled) (e : ControllerEvent) :
    (handleEvent true s e).isCancelled = true
    ∧ (handleEvent true s e).processingState = ProcessingState.cancelled
    ∧ (handleEvent true s e).progress = s.progress := by
  cases e with
  | progress p => simp [handleEvent, handleProgress, hc, hs]
  | complete r => simp [handleEvent, handleComplete, hc, hs]

/-- C2 helper: the invariant holds along any event sequence. -/
theorem foldl_handleEvent_cancelled (es : List ControllerEvent) (s : ProcessorState)
    (hc : s.isCancelled = true) (hs : s.processingState = ProcessingState.cancelled) :
    (es.foldl (handleEvent true) s).isCancelled = true
    ∧ (es.foldl (handleEvent true) s).processingState = ProcessingState.cancelled
    ∧ (es.foldl (handleEvent true) s).progress = s.progress := by
  induction es generalizing s with
  | nil => exact ⟨hc, hs, rfl⟩
  | cons e rest ih =>
    have h₁ := handleEvent_cancelled_invariant s hc hs e
    have h₂ := ih (handleEvent true s e) h₁.1 h₁.2.1
    exact ⟨h₂.1, h₂.2.1, h₂.2.2.trans h₁.2.2⟩

/-- C2: once cancelProcessing fires during processing, every later progress
event is discarded (the progress map never changes again), the state stays
cancelled along any event sequence, and a terminal complete event still
stores its payload as the result while resolving to cancelled, not
complete. -/
theorem cancelProcessing_discards_later_events (s : ProcessorState)
    (h : s.processingState = ProcessingState.processing) (es : List ControllerEvent) :
    (es.foldl (handleEvent true) (cancelProcessing s)).progress = s.progress
    ∧ (es.foldl (handleEvent true) (cancelProcessing s)).processingState
      = ProcessingState.cancelled
    ∧ (es.foldl (handleEvent true) (cancelProcessing s)).isCancelled = true
    ∧ (∀ r,
        (handleComplete true (es.foldl (handleEvent true) (cancelProcessing s)) r).result = some r
        ∧ (handleComplete true (es.foldl (handleEvent true) (cancelProcessing s)) r).processingState
          = ProcessingState.cancelled) := by
  have hcp : cancelProcessing s
      = { s with isCancelled := true, processingState := ProcessingState.cancelled } := by
    simp [cancelProcessing, h]
  have hfold := foldl_handleEvent_cancelled es (cancelProcessing s)
    (by rw [hcp]) (by rw [hcp])
  refine ⟨hfold.2.2.trans (by rw [hcp]), hfold.2.1, hfold.1, ?_⟩
  intro r
  constructor <;> simp [handleComplete, hfold.1]

/-- C2 witness: after cancelling a fresh processing run, a progress event and
a complete event leave the state cancelled, and a complete event arriving at
that point still records its payload. -/
theorem cancelProcessing_discards_later_events_witness :
    ([ControllerEvent.progress sampleProgress,
        ControllerEvent.complete sampleBatchResult].foldl (handleEvent true)
        (cancelProcessing (startRun initialState))).processingState = ProcessingState.cancelled
    ∧ (handleComplete true
        ([ControllerEvent.progress sampleProgress,
          ControllerEvent.complete sampleBatchResult].foldl (handleEvent true)
          (cancelProcessing (startRun initialState))) sampleBatchResult).result
      = some sampleBatchResult :=
  ⟨(cancelProcessing_discards_later_events (startRun initialState) rfl
      [ControllerEvent.progress sampleProgress,
        ControllerEvent.complete sampleBatchResult]).2.1,
    ((cancelProcessing_discards_later_events (startRun initialState) rfl
      [ControllerEvent.progress sampleProgress,
        ControllerEvent.complete sampleBatchResult]).2.2.2 sampleBatchResult).1⟩

/-- C6 helper: setting a key makes it the key found by lookup. -/
theorem mapGet_mapSet_self (m : List (String × ProgressPayload)) (k : String)
    (v : ProgressPayload) : mapGet (mapSet m k v) k = some v := by
  induction m with
  | nil => simp [mapSet, mapGet]
  | cons e rest ih =>
    obtain ⟨k₁, v₁⟩ := e
    by_cases hk : k₁ = k
    · simp [mapSet, mapGet, hk]
    · simp [mapSet, mapGet, hk, ih]

/-- C6 helper: setting a key leaves every other lookup unchanged. -/
theorem mapGet_mapSet_ne (m : List (String × ProgressPayload)) (k : String)
    (v : ProgressPayload) (a : String) (h : a ≠ k) :
    mapGet (mapSet m k v) a = mapGet m a := by
  induction m with
  | nil => simp [mapSet, mapGet, Ne.symm h]
  | cons e rest ih =>
    obtain ⟨k₁, v₁⟩ := e
    by_cases hk : k₁ = k
    · subst hk
      simp [mapSet, mapGet, Ne.symm h]
    · simp only [mapSet, if_neg hk, mapGet]
      by_cases ha : k₁ = a <;> simp [ha, ih]

/-- C6 helper: a key of the updated map is an old key or the set key. -/
theorem mem_keys_mapSet (m : List (String × ProgressPayload)) (k : String)
    (v : ProgressPayload) (a : String) :
    a ∈ (mapSet m k v).map Prod.fst → a ∈ m.map Prod.fst ∨ a = k := by
  induction m with
  | nil =>
    intro h
    simp only [mapSet, List.map_cons, List.map_nil, List.mem_cons,
      List.not_mem_nil, or_false] at h
    exact Or.inr h
  | cons e rest ih =>
    obtain ⟨k₁, v₁⟩ := e
    intro h
    by_cases hk : k₁ = k
    · subst hk
      simp only [mapSet, eq_self_iff_true, if_true, List.map_cons, List.mem_cons] at h
      rcases h with h | h
      · exact Or.inr h
      · exact Or.inl (List.mem_cons_of_mem _ h)
    · simp only [mapSet, if_neg hk, List.map_cons, List.mem_cons] at h
      rcases h with h | h
      · exact Or.inl (by rw [h]; exact List.mem_cons_self _ _)
      · rcases ih h with h₁ | h₁
        · exact Or.inl (List.mem_cons_of_mem _ h₁)
        · exact Or.inr h₁

/-- C6 helper: updating preserves key uniqueness. -/
theorem keys_nodup_mapSet (m : List (String × ProgressPayload)) (k : String)
    (v : ProgressPayload) (h : (m.map Prod.fst).Nodup) :
    ((mapSet m k v).map Prod.fst).Nodup := by
  induction m with
  | nil => simp [mapSet]
  | cons e rest ih =>
    obtain ⟨k₁, v₁⟩ := e
    simp only [List.map_cons, List.nodup_cons] at h
    by_cases hk : k₁ = k
    · subst hk
      simpa [mapSet, List.nodup_cons] using h
    · simp only [mapSet, if_neg hk, List.map_cons, List.nodup_cons]
      refine ⟨?_, ih h.2⟩
      intro hmem
      rcases mem_keys_mapSet rest k v k₁ hmem with h₁ | h₁
      · exact h.1 h₁
      · exact hk h₁

/-- C6 helper: folding updates preserves key uniqueness. -/
theorem keys_nodup_foldl_mapSet (ps : List ProgressPayload)
    (m : List (String × ProgressPayload)) (h : (m.map Prod.fst).Nodup) :
    ((ps.foldl (fun acc p => mapSet acc p.filePath p) m).map Prod.fst).Nodup := by
  induction ps generalizing m with
  | nil => exact h
  | cons p rest ih => exact ih (mapSet m p.filePath p) (keys_nodup_mapSet m p.filePath p h)

/-- C6 helper: the last element of a cons. -/
theorem getLast?_cons_eq_or (a : ProgressPayload) (l : List ProgressPayload) :
    (a :: l).getLast? = l.getLast?.or (some a) := by
  cases l with
  | nil => rfl
  | cons b t =>
    rw [List.getLast?_cons_cons]
    obtain ⟨x, hx⟩ := Option.isSome_iff_exists.mp (List.getLast?_isSome.mpr (by simp) :
      ((b :: t).getLast?).isSome)
    rw [hx]
    rfl

/-- C6 helper: after folding the updates, a lookup returns the last payload
delivered for that key, falling back to the initial map. -/
theorem mapGet_foldl_mapSet (ps : List ProgressPayload)
    (m : List (String × ProgressPayload)) (k : String) :
    mapGet (ps.foldl (fun acc p => mapSet acc p.filePath p) m) k
      = (lastPayloadFor ps k).or (mapGet m k) := by
  induction ps generalizing m with
  | nil => simp [lastPayloadFor, Option.none_or]
  | cons p rest ih =>
    rw [List.foldl_cons, ih (mapSet m p.filePath p)]
    simp only [lastPayloadFor]
    by_cases hk : p.filePath = k
    · subst hk
      rw [mapGet_mapSet_self]
      rw [List.filter_cons_of_pos (by simp), getLast?_cons_eq_or, Option.or_assoc]
      rfl
    · rw [mapGet_mapSet_ne m p.filePath p k (Ne.symm hk)]
      rw [List.filter_cons_of_neg (by simp [hk])]

/-- C6 helper: delivering progress events to a mounted, uncancelled
controller folds map updates over the progress store and leaves the flag
unset. -/
theorem applyProgressEvents_progress (ps : List ProgressPayload) (s : ProcessorState)
    (hc : s.isCancelled = false) :
    (applyProgressEvents s ps).progress
      = ps.foldl (fun acc p => mapSet acc p.filePath p) s.progress
    ∧ (applyProgressEvents s ps).isCancelled = false := by
  induction ps generalizing s with
  | nil => exact ⟨rfl, hc⟩
  | cons p rest ih =>
    have hstep : handleProgress true s p
        = { s with progress := mapSet s.progress p.filePath p } := by
      simp [handleProgress, hc]
    have := ih { s with progress := mapSet s.progress p.filePath p } hc
    refine ⟨?_, ?_⟩
    · show (applyProgressEvents (handleProgress true s p) rest).progress = _
      rw [hstep]
      exact this.1
    · show (applyProgressEvents (handleProgress true s p) rest).isCancelled = false
      rw [hstep]
      exact this.2

/-- C6: along any run, the progress store keeps exactly one entry per file
path — the last payload delivered for that path — its keys stay unique, and
the derived progressArray is sorted by nondecreasing fileIndex. -/
theorem progress_store_last_write_and_sorted (ps : List ProgressPayload) :
    (((applyProgressEvents (startRun initialState) ps).progress.map Prod.fst).Nodup)
    ∧ (∀ k, mapGet (applyProgressEvents (startRun initialState) ps).progress k
        = lastPayloadFor ps k)
    ∧ (progressArray (applyProgressEvents (startRun initialState) ps)).Pairwise
        (fun a b => a.fileIndex ≤ b.fileIndex) := by
  have hprog := applyProgressEvents_progress ps (startRun initialState) rfl
  refine ⟨?_, ?_, ?_⟩
  · rw [hprog.1]
    exact keys_nodup_foldl_mapSet ps [] (by simp)
  · intro k
    rw [hprog.1, mapGet_foldl_mapSet]
    show (lastPayloadFor ps k).or (mapGet [] k) = lastPayloadFor ps k
    rw [show mapGet [] k = none from rfl, Option.or_none]
  · have hs := @List.sorted_mergeSort ProgressPayload
      (fun a b : ProgressPayload => decide (a.fileIndex ≤ b.fileIndex))
      (fun a b c hab hbc => by
        simp only [decide_eq_true_eq] at hab hbc ⊢
        omega)
      (fun a b => by
        rcases Nat.le_total a.fileIndex b.fileIndex with h | h <;> simp [h])
      ((applyProgressEvents (startRun initialState) ps).progress.map Prod.snd)
    exact hs.imp (fun h => by simpa using h)

end BulkWatermark
